import Mathlib

/-!
Verification development for the `worker-to-promise` library
(`src/lib/worker-to-promise.js`).

The JavaScript source is shallowly embedded: JavaScript strings are modeled
as Lean `String` (sequences of Unicode scalar values; the index-based
`substring` calls of the source only ever cut inside an ASCII prefix, where
code-unit indices and character indices agree), JS arrays as Lean lists,
fallible computations as `Except`/`Option`, and the event-driven promise
bridge as an explicit state machine over a list of incoming worker events.

Host capabilities that the library calls but does not define —
`JSON.stringify` / `JSON.parse`, property access, string coercion, the
`{ ...spread }` object literal — are modeled by executable Lean functions
over an explicit JSON-style value domain (`JsValue`, with integer numerics;
fractional numbers and string escapes beyond those the serializer emits are
out of scope for every property below and are not modeled).
-/

namespace WorkerToPromise

/-! ### Character-list utilities (models of the JS string primitives used) -/

/-- The opening curly brace character. -/
def braceOpen : Char := Char.ofNat 123

/-- The closing curly brace character. -/
def braceClose : Char := Char.ofNat 125

/-- Model of `String.prototype.substring(0, n)`: the first `n` characters. -/
def strTake (s : String) (n : Nat) : String := ⟨s.data.take n⟩

/-- Model of `String.prototype.substring(n)`: everything from index `n` on. -/
def strDrop (s : String) (n : Nat) : String := ⟨s.data.drop n⟩

/-- Does `pat` occur at the head of `text`? -/
def startsWithChars : List Char → List Char → Bool
  | [], _ => true
  | _ :: _, [] => false
  | p :: ps, c :: cs => p == c && startsWithChars ps cs

/-- Model of `String.prototype.replace(pat, repl)` with a plain-string
pattern: replace the first occurrence of `pat` (if any) and leave the rest
of the text unchanged.  (The `$`-substitution patterns of the real
replacement-string argument never arise from this library's call sites'
shapes and are not modeled.) -/
def replaceFirstChars (text pat repl : List Char) : List Char :=
  match text with
  | [] => if startsWithChars pat [] then repl else []
  | c :: cs =>
    if startsWithChars pat (c :: cs) then repl ++ (c :: cs).drop pat.length
    else c :: replaceFirstChars cs pat repl

/-- `replaceFirstChars`, lifted to `String`. -/
def replaceFirst (s pat repl : String) : String :=
  ⟨replaceFirstChars s.data pat.data repl.data⟩

/-- Model of `String.prototype.split('\n')` (single-character separator,
no regular expression): the newline-separated segments, in order. -/
def splitNl : List Char → List (List Char)
  | [] => [[]]
  | c :: cs =>
    if c = '\n' then [] :: splitNl cs
    else
      match splitNl cs with
      | [] => [[c]]
      | l :: ls => (c :: l) :: ls

/-- Interleave `sep` between the strings of `parts` (model of
`Array.prototype.join(sep)`). -/
def joinWith (sep : String) : List String → String
  | [] => ""
  | [s] => s
  | s :: rest => s ++ sep ++ joinWith sep rest

/-- The whitespace characters relevant to this development (the generated
text only contains spaces and newlines; tabs and carriage returns are
included for good measure). -/
def isWsChar (c : Char) : Bool := c == ' ' || c == '\n' || c == '\t' || c == '\r'

/-- Model of `String.prototype.trim()`: drop whitespace from both ends. -/
def trimStr (s : String) : String :=
  ⟨((s.data.dropWhile isWsChar).reverse.dropWhile isWsChar).reverse⟩

/-- Is `c` a decimal digit? -/
def isDigitCh (c : Char) : Bool := 48 ≤ c.toNat && c.toNat ≤ 57

/-- The digit character for `n % 10`. -/
def digitCh (n : Nat) : Char := Char.ofNat (48 + n % 10)

/-- Decimal digit characters of `n`, most significant first.  The recursion
is structural on an explicit bound (`n` itself suffices), so the definition
unfolds by kernel reduction. -/
def natDigitsB : Nat → Nat → List Char
  | 0, n => [digitCh n]
  | b + 1, n => if n < 10 then [digitCh n] else natDigitsB b (n / 10) ++ [digitCh n]

/-- Decimal digit characters of `n`. -/
def natDigits (n : Nat) : List Char := natDigitsB n n

/-- Decimal rendering of a natural number. -/
def natStr (n : Nat) : String := ⟨natDigits n⟩

/-- Characters of an integer: optional minus sign then decimal digits
(model of the JS number-to-string conversion, restricted to integers). -/
def intChars (i : Int) : List Char :=
  if i < 0 then '-' :: natDigits i.natAbs else natDigits i.natAbs

/-- Decimal rendering of an integer. -/
def intStr (i : Int) : String := ⟨intChars i⟩

/-! ### The JSON-style value domain

`JsValue` models the values that cross the worker boundary: everything
`JSON.parse` can produce (with integer numerics).  Arrays and objects are
nested lists. -/

/-- A JSON-style runtime value (integer numerics). -/
inductive JsValue where
  | null
  | bool (b : Bool)
  | num (n : Int)
  | str (s : String)
  | arr (elems : List JsValue)
  | obj (fields : List (String × JsValue))

/-! ### The serializer (model of `JSON.stringify`)

Escaping covers exactly what matters here: the quote, the backslash, and
the five short control escapes.  Remaining control characters are emitted
literally (the real serializer uses `\u00XX`; no property below depends on
them). -/

/-- One string character, JSON-escaped. -/
def encodeStrChar (c : Char) : List Char :=
  if c = '"' then ['\\', '"']
  else if c = '\\' then ['\\', '\\']
  else if c = Char.ofNat 8 then ['\\', 'b']
  else if c = '\t' then ['\\', 't']
  else if c = '\n' then ['\\', 'n']
  else if c = Char.ofNat 12 then ['\\', 'f']
  else if c = Char.ofNat 13 then ['\\', 'r']
  else [c]

/-- A string body, JSON-escaped. -/
def encodeStrBody : List Char → List Char
  | [] => []
  | c :: cs => encodeStrChar c ++ encodeStrBody cs

mutual
/-- Characters of the JSON text for a value. -/
def encodeVal : JsValue → List Char
  | .null => ("null" : String).data
  | .bool true => ("true" : String).data
  | .bool false => ("false" : String).data
  | .num n => intChars n
  | .str s => '"' :: (encodeStrBody s.data ++ ['"'])
  | .arr es => '[' :: (encodeElems es ++ [']'])
  | .obj fs => braceOpen :: (encodeFields fs ++ [braceClose])

/-- Array elements, comma-separated. -/
def encodeElems : List JsValue → List Char
  | [] => []
  | v :: vs => encodeVal v ++ encodeElemsTail vs

/-- The remaining array elements, each preceded by a comma. -/
def encodeElemsTail : List JsValue → List Char
  | [] => []
  | v :: vs => ',' :: (encodeVal v ++ encodeElemsTail vs)

/-- Object members, comma-separated, each `"key":value`. -/
def encodeFields : List (String × JsValue) → List Char
  | [] => []
  | (k, v) :: fs =>
    '"' :: (encodeStrBody k.data ++ ['"', ':']) ++ encodeVal v ++ encodeFieldsTail fs

/-- The remaining object members, each preceded by a comma. -/
def encodeFieldsTail : List (String × JsValue) → List Char
  | [] => []
  | (k, v) :: fs =>
    ',' :: ('"' :: (encodeStrBody k.data ++ ['"', ':']) ++ encodeVal v ++ encodeFieldsTail fs)
end

/-- Model of `JSON.stringify` on the `JsValue` domain. -/
def jsonStringify (v : JsValue) : String := ⟨encodeVal v⟩

/-! ### The parser (model of `JSON.parse`)

A recursive-descent parser over the character list.  Recursion is
structural on an explicit fuel counter; the public `jsonParse` supplies
the input length plus one, which the round-trip proof shows is always
enough for serializer output.  The grammar accepted is the one the
serializer emits (integer numbers, the serializer's escapes, no
surrounding whitespace); on anything else the parser returns `none`,
modeling a thrown `SyntaxError`. -/

/-- Numeric value of a decimal digit character. -/
def digitVal (c : Char) : Nat := c.toNat - 48

/-- Consume a run of decimal digits, accumulating their value. -/
def parseDigits (acc : Nat) : List Char → Nat × List Char
  | [] => (acc, [])
  | c :: cs =>
    if isDigitCh c then parseDigits (acc * 10 + digitVal c) cs else (acc, c :: cs)

/-- Input that cannot extend a digit run: empty, or headed by a
non-digit.  Every delimiter of the JSON grammar qualifies. -/
def numStop : List Char → Bool
  | [] => true
  | c :: _ => !(isDigitCh c)

/-- Parse a string body after the opening quote, up to the closing quote,
undoing the serializer's escapes. -/
def parseStrBody : List Char → Option (List Char × List Char)
  | [] => none
  | c :: cs =>
    if c = '"' then some ([], cs)
    else if c = '\\' then
      match cs with
      | [] => none
      | e :: cs2 =>
        match
          (if e = '"' then some '"'
           else if e = '\\' then some '\\'
           else if e = 'b' then some (Char.ofNat 8)
           else if e = 't' then some '\t'
           else if e = 'n' then some '\n'
           else if e = 'f' then some (Char.ofNat 12)
           else if e = 'r' then some (Char.ofNat 13)
           else none) with
        | none => none
        | some d =>
          match parseStrBody cs2 with
          | none => none
          | some (body, rest) => some (d :: body, rest)
    else
      match parseStrBody cs with
      | none => none
      | some (body, rest) => some (c :: body, rest)

mutual
/-- Parse one JSON value.  `fuel` only bounds the recursion depth of the
nested-value grammar; every other loop is structural on the input. -/
def parseVal : Nat → List Char → Option (JsValue × List Char)
  | 0, _ => none
  | _ + 1, [] => none
  | fuel + 1, c :: cs =>
    if c = 'n' then
      match cs with
      | 'u' :: 'l' :: 'l' :: rest => some (.null, rest)
      | _ => none
    else if c = 't' then
      match cs with
      | 'r' :: 'u' :: 'e' :: rest => some (.bool true, rest)
      | _ => none
    else if c = 'f' then
      match cs with
      | 'a' :: 'l' :: 's' :: 'e' :: rest => some (.bool false, rest)
      | _ => none
    else if c = '"' then
      match parseStrBody cs with
      | none => none
      | some (body, rest) => some (.str ⟨body⟩, rest)
    else if c = '-' then
      match cs with
      | [] => none
      | d :: ds =>
        if isDigitCh d then
          let (n, rest) := parseDigits 0 (d :: ds)
          some (.num (-(n : Int)), rest)
        else none
    else if isDigitCh c then
      let (n, rest) := parseDigits 0 (c :: cs)
      some (.num (n : Int), rest)
    else if c = '[' then
      match cs with
      | [] => none
      | c2 :: cs2 =>
        if c2 = ']' then some (.arr [], cs2)
        else
          match parseElems fuel (c2 :: cs2) with
          | none => none
          | some (es, rest) => some (.arr es, rest)
    else if c = braceOpen then
      match cs with
      | [] => none
      | c2 :: cs2 =>
        if c2 = braceClose then some (.obj [], cs2)
        else
          match parseFields fuel (c2 :: cs2) with
          | none => none
          | some (fs, rest) => some (.obj fs, rest)
    else none

/-- Parse one or more comma-separated array elements and the closing `]`. -/
def parseElems : Nat → List Char → Option (List JsValue × List Char)
  | 0, _ => none
  | fuel + 1, cs =>
    match parseVal fuel cs with
    | none => none
    | some (v, rest) =>
      match rest with
      | [] => none
      | r :: rs =>
        if r = ',' then
          match parseElems fuel rs with
          | none => none
          | some (vs, rest2) => some (v :: vs, rest2)
        else if r = ']' then some ([v], rs)
        else none

/-- Parse one or more comma-separated object members and the closing brace. -/
def parseFields : Nat → List Char → Option (List (String × JsValue) × List Char)
  | 0, _ => none
  | fuel + 1, cs =>
    match cs with
    | [] => none
    | c :: cs2 =>
      if c = '"' then
        match parseStrBody cs2 with
        | none => none
        | some (key, rest1) =>
          match rest1 with
          | ':' :: rest2 =>
            match parseVal fuel rest2 with
            | none => none
            | some (v, rest3) =>
              match rest3 with
              | [] => none
              | r :: rs =>
                if r = ',' then
                  match parseFields fuel rs with
                  | none => none
                  | some (fs, rest4) => some ((⟨key⟩, v) :: fs, rest4)
                else if r = braceClose then some ([(⟨key⟩, v)], rs)
                else none
          | _ => none
      else none
end

/-- Model of `JSON.parse`: parse the whole string as one JSON value;
`none` models a thrown `SyntaxError` (including trailing garbage). -/
def jsonParse (s : String) : Option JsValue :=
  match parseVal (s.data.length + 1) s.data with
  | some (v, []) => some v
  | _ => none

/-! ### Property access and string coercion (models of host behavior)

`JSON.parse` output never contains `undefined`, so property access throws
only on `null`; on objects it yields the field or `undefined`, on every
other value `undefined`. -/

/-- The result of a JS property read: a value, or `undefined`. -/
inductive PropVal where
  | undef
  | val (v : JsValue)

/-- First field with the given key. -/
def lookupField : List (String × JsValue) → String → Option JsValue
  | [], _ => none
  | (k, v) :: fs, key => if k = key then some v else lookupField fs key

/-- Model of `value[key]` for the keys read by the bridge (`message`,
`stack`): `none` models the `TypeError` thrown on `null`. -/
def jsGetProp (v : JsValue) (key : String) : Option PropVal :=
  match v with
  | .null => none
  | .obj fs =>
    some (match lookupField fs key with
          | some w => .val w
          | none => .undef)
  | _ => some .undef

mutual
/-- Model of the JS abstract `String(value)` coercion on `JsValue`. -/
def jsToStr : JsValue → String
  | .null => "null"
  | .bool true => "true"
  | .bool false => "false"
  | .num n => intStr n
  | .str s => s
  | .arr es => joinWith "," (arrElemStrs es)
  | .obj _ => "[object Object]"

/-- Array elements under `Array.prototype.join`: `null` renders empty. -/
def arrElemStrs : List JsValue → List String
  | [] => []
  | .null :: vs => "" :: arrElemStrs vs
  | v :: vs => jsToStr v :: arrElemStrs vs
end

/-- The `message` the `Error` constructor records: absent when the
argument is `undefined`, else its string coercion. -/
def errMessageStr : PropVal → String
  | .undef => ""
  | .val v => jsToStr v

/-- Template-literal interpolation of a possibly-`undefined` value. -/
def tmplStr : PropVal → String
  | .undef => "undefined"
  | .val v => jsToStr v

/-! ### `WorkerError` (source lines 109–125) -/

/-- The failure value surfaced to the caller. -/
structure WorkerError where
  message : String
  stack : String
  generatedCode : String

/-- Prefix each line of the text with its 1-based number and `: `
(source: `generatedCode.split('\n').map((line, index) => ...)`). -/
def numberFrom : Nat → List String → List String
  | _, [] => []
  | i, l :: ls => (natStr i ++ ": " ++ l) :: numberFrom (i + 1) ls

/-- The line-numbered dump of the generated program text. -/
def numberLines (g : String) : String :=
  joinWith "\n" (numberFrom 1 ((splitNl g.data).map fun l => (⟨l⟩ : String)))

/-- The fixed text the constructor places between the originating stack
and the (trimmed) dump. -/
def stackGlue1 : String :=
  "\n    \n    \n    ========== GENERATED CODE ===============\n\n    "

/-- The fixed text the constructor appends after the dump. -/
def stackGlue2 : String := "\n    "

/-- Model of `new WorkerError(message, stack, generatedCode)`.  The first
two arguments arrive as property reads in the `err`-message path, so they
are `PropVal`s; the `error`-event path passes genuine strings
(`mkWorkerErrorS`). -/
def mkWorkerError (message stack : PropVal) (generatedCode : String) : WorkerError :=
  let gc := numberLines generatedCode
  { message := errMessageStr message
    stack := tmplStr stack ++ stackGlue1 ++ trimStr gc ++ stackGlue2
    generatedCode := gc }

/-- `mkWorkerError` at string arguments. -/
def mkWorkerErrorS (message stack generatedCode : String) : WorkerError :=
  mkWorkerError (.val (.str message)) (.val (.str stack)) generatedCode

/-! ### The program synthesizer (source lines 63–107) -/

/-- A dependency declaration (`{from, exports, default}`); `none` models
an absent (`undefined`) field. -/
structure Dependency where
  from_ : String
  exports : Option (List String)
  default : Option String

/-- The named-exports binding statement for one declaration. -/
def exportsString (src : String) (es : List String) : String :=
  "const \x7b" ++ joinWith "," es ++ "\x7d = require(\x27" ++ src ++ "\x27);"

/-- The default-binding statement for one declaration. -/
def defaultString (src nm : String) : String :=
  "const " ++ nm ++ " = require(\x27" ++ src ++ "\x27);"

/-- The loop body of `createDependencyStrings`: push the named-exports
statement when `exports` is a non-empty array, then the default-binding
statement when `default` is a non-empty string (JS truthiness of the
field and of its `length`). -/
def depLoop : List Dependency → List String → List String
  | [], acc => acc
  | d :: ds, acc =>
    let acc1 :=
      match d.exports with
      | some es => if 0 < es.length then acc ++ [exportsString d.from_ es] else acc
      | none => acc
    let acc2 :=
      match d.default with
      | some nm => if 0 < nm.length then acc1 ++ [defaultString d.from_ nm] else acc1
      | none => acc1
    depLoop ds acc2

/-- Model of `createDependencyStrings` (source lines 77–86). -/
def createDependencyStrings (dependencies : List Dependency) : String :=
  joinWith "\n" (depLoop dependencies [])

/-- The statements one declaration contributes, in order: named exports
first, then the default binding.  This is the specification-level shape;
the claim theorem relates it to the accumulator loop above. -/
def depStatements (d : Dependency) : List String :=
  (match d.exports with
   | some es => if 0 < es.length then [exportsString d.from_ es] else []
   | none => []) ++
  (match d.default with
   | some nm => if 0 < nm.length then [defaultString d.from_ nm] else []
   | none => [])

/-- A host error value such as a `TypeError` (name, message, stack). -/
structure RawErr where
  name : String
  message : String
  stack : String

/-- The function argument of `workerToPromise`: a genuine function with a
`name` and a source text (`toString()`), or a non-function value (e.g.
`undefined`) on which the synthesizer's property reads throw `e`. -/
inductive JsFuncArg where
  | fn (fname source : String)
  | badValue (e : RawErr)

/-- Model of `getFunctionString` (source lines 88–90); reading `.name` on
a non-function throws. -/
def getFunctionString : JsFuncArg → Except RawErr String
  | .fn nm src => .ok ("const " ++ nm ++ " = " ++ src)
  | .badValue e => .error e

/-- Reading `workerFunc.name` (second `replace` argument). -/
def funcNameOf : JsFuncArg → Except RawErr String
  | .fn nm _ => .ok nm
  | .badValue e => .error e

/-- The source text of `__workerScript` (its `toString()`), exactly as in
source lines 92–102. -/
def workerScriptSource : String :=
  "function __workerScript() \x7b\n  __placeholderFor__(\x27WORKER_FUNCTION\x27)\n  const unknownResult = __placeholderFor__(\x27WORKER_FUNCTION_NAME\x27)(workerData)\n  Promise.resolve(unknownResult)\n    .then((data) => \x7b\n      parentPort.postMessage(\x60res:$\x7bJSON.stringify(data)\x7d\x60)\n    \x7d)\n    .catch((err) => \x7b\n      parentPort.postMessage(\x60err:$\x7bJSON.stringify(\x7bmessage: err.message, stack: err.stack\x7d)\x7d\x60)\n    \x7d)\n\x7d"

/-- The first `replace` pattern. -/
def placeholderFn : String := "__placeholderFor__(\x27WORKER_FUNCTION\x27)"

/-- The second `replace` pattern. -/
def placeholderFnName : String := "__placeholderFor__(\x27WORKER_FUNCTION_NAME\x27)"

/-- The template literal of `buildWorkerScript` (source lines 64–70) with
the dependency block substituted. -/
def scriptTemplate (depStr : String) : String :=
  "\n        " ++ depStr ++
  "\n        const \x7b parentPort, workerData \x7d = require(\x27node:worker_threads\x27);\n        " ++
  workerScriptSource ++ "\n        ;\n        __workerScript();\n        "

/-- Model of `buildWorkerScript` (source lines 63–75): build the template
(the dependency block cannot throw on typed declarations), then evaluate
the two `replace` arguments — each a property read on `workerFunc` that
throws when it is not a function — and substitute the first occurrence of
each placeholder. -/
def buildWorkerScript (workerFunc : JsFuncArg) (dependencies : List Dependency) :
    Except RawErr String :=
  let base := scriptTemplate (createDependencyStrings dependencies)
  match getFunctionString workerFunc with
  | .error e => .error e
  | .ok fnStr =>
    match funcNameOf workerFunc with
    | .error e => .error e
    | .ok nm => .ok (replaceFirst (replaceFirst base placeholderFn fnStr) placeholderFnName nm)

/-- The program text `buildWorkerScript` produces on a genuine function
(the `.ok` branch spelled out). -/
def okScript (nm src : String) (dependencies : List Dependency) : String :=
  replaceFirst
    (replaceFirst (scriptTemplate (createDependencyStrings dependencies))
      placeholderFn ("const " ++ nm ++ " = " ++ src))
    placeholderFnName nm

/-! ### Worker options (source line 40) -/

/-- Set `key` to `v`: overwrite the first entry with that key in place, or
append (the JS object-literal update semantics for
`{ ...props, key: v }`). -/
def setKey {V : Type} : List (String × V) → String → V → List (String × V)
  | [], key, v => [(key, v)]
  | (k, w) :: rest, key, v =>
    if k = key then (k, v) :: rest else (k, w) :: setKey rest key v

/-- First value bound to `key`. -/
def lookupKey {V : Type} : List (String × V) → String → Option V
  | [], _ => none
  | (k, w) :: rest, key => if k = key then some w else lookupKey rest key

/-- Model of `{ ...workerProps, eval: true, workerData: payload }`. -/
def buildWorkerOptions {V : Type} (workerProps : List (String × V)) (evalV dataV : V) :
    List (String × V) :=
  setKey (setKey workerProps "eval" evalV) "workerData" dataV

/-- A worker-option value: a JSON-representable value, or an arbitrary
host value the bridge merely forwards. -/
inductive OptVal where
  | json (v : JsValue)
  | hostVal (tag : String)

/-! ### The invocation bridge (source lines 35–61) -/

/-- A thrown JS value as the caller can observe it: a raw host error, or
a `WorkerError`. -/
inductive ThrownValue where
  | raw (e : RawErr)
  | worker (w : WorkerError)

/-- What reaches the isolation primitive when a worker is spawned. -/
structure SpawnConfig where
  script : String
  options : List (String × OptVal)

/-- The immediate outcome of calling `workerToPromise`: a synchronously
thrown value, or a pending promise wired to a spawned worker. -/
inductive InvokeResult where
  | syncThrow (e : ThrownValue)
  | promise (cfg : SpawnConfig)

/-- Model of `workerToPromise` (source lines 35–61) up to the point where
control returns to the caller.  `buildWorkerScript` is evaluated before
the `try` block, so an exception there propagates to the caller as-is; the
`catch` that wraps exceptions in `WorkerError` never runs (a synchronous
throw inside the `Promise` executor is turned into a rejection by the
`Promise` machinery, not re-thrown). -/
def workerToPromise (func : JsFuncArg) (payload : JsValue)
    (dependencies : List Dependency) (workerProps : List (String × OptVal)) :
    InvokeResult :=
  match buildWorkerScript func dependencies with
  | .error e => .syncThrow (.raw e)
  | .ok script =>
    .promise ⟨script, buildWorkerOptions workerProps (.json (.bool true)) (.json payload)⟩

/-- An event delivered to the bridge's listeners: the worker's `error`
signal, or an outbound message. -/
inductive WorkerEvent where
  | errorEv (message stack : String)
  | messageEv (text : String)

/-- A settlement of the returned promise. -/
inductive Settlement where
  | success (v : JsValue)
  | failure (e : WorkerError)

/-- The bridge's per-invocation state: the promise's settlement (if any),
whether the one-shot `once('message')` listener has been consumed, and how
many listener invocations ended in an uncaught exception. -/
structure BridgeState where
  settled : Option Settlement
  msgConsumed : Bool
  listenerCrashes : Nat

/-- The state right after the promise executor ran. -/
def initialBridge : BridgeState := ⟨none, false, 0⟩

/-- `resolve`/`reject`: a promise settles at most once, so later attempts
are ignored. -/
def settleWith (st : BridgeState) (s : Settlement) : BridgeState :=
  if st.settled.isSome then st else { st with settled := some s }

/-- One event, as handled by the two listeners of source lines 43–54.
The persistent `on('error')` listener always attempts a rejection; the
one-shot `once('message')` listener is removed before it runs, decodes the
payload (a `SyntaxError` there crashes the listener before any
settlement), then dispatches on the 3-character tag — an unrecognized tag
settles nothing. -/
def stepBridge (script : String) (st : BridgeState) : WorkerEvent → BridgeState
  | .errorEv m k => settleWith st (.failure (mkWorkerErrorS m k script))
  | .messageEv m =>
    if st.msgConsumed then st
    else
      let st1 : BridgeState := { st with msgConsumed := true }
      let type := strTake m 3
      let response := strDrop m 4
      match jsonParse response with
      | none => { st1 with listenerCrashes := st1.listenerCrashes + 1 }
      | some result =>
        if type = "res" then settleWith st1 (.success result)
        else if type = "err" then
          match jsGetProp result "message" with
          | none => { st1 with listenerCrashes := st1.listenerCrashes + 1 }
          | some pm =>
            match jsGetProp result "stack" with
            | none => { st1 with listenerCrashes := st1.listenerCrashes + 1 }
            | some ps => settleWith st1 (.failure (mkWorkerError pm ps script))
        else st1

/-- The bridge's reaction to a whole sequence of worker events. -/
def runBridge (script : String) (events : List WorkerEvent) : BridgeState :=
  events.foldl (stepBridge script) initialBridge

/-! ### The harness's outbound messages (modeled from `__workerScript`,
source lines 92–102) -/

/-- The success message the generated harness posts. -/
def harnessResMessage (v : JsValue) : String := "res:" ++ jsonStringify v

/-- The failure message the generated harness posts. -/
def harnessErrMessage (message stack : String) : String :=
  "err:" ++ jsonStringify (.obj [("message", .str message), ("stack", .str stack)])


theorem digitCh_toNat (n : Nat) : (digitCh n).toNat = 48 + n % 10 := by
  have h : n % 10 < 10 := Nat.mod_lt _ (by omega)
  unfold digitCh Char.ofNat
  split
  · rfl
  · rename_i h2
    exfalso; apply h2; constructor; omega

theorem isDigitCh_digitCh (n : Nat) : isDigitCh (digitCh n) = true := by
  have h : n % 10 < 10 := Nat.mod_lt _ (by omega)
  simp [isDigitCh, digitCh_toNat]; omega

theorem digitVal_digitCh (n : Nat) : digitVal (digitCh n) = n % 10 := by
  simp [digitVal, digitCh_toNat]

theorem natDigitsB_irrel : ∀ b c n, n ≤ b → n ≤ c → natDigitsB b n = natDigitsB c n := by
  intro b
  induction b with
  | zero =>
    intro c n hb hc
    have : n = 0 := by omega
    subst this
    cases c with
    | zero => rfl
    | succ c' => simp [natDigitsB]
  | succ b' ih =>
    intro c n hb hc
    cases c with
    | zero =>
      have : n = 0 := by omega
      subst this
      simp [natDigitsB]
    | succ c' =>
      simp only [natDigitsB]
      by_cases h10 : n < 10
      · simp [h10]
      · have hlt : n / 10 < n := Nat.div_lt_self (by omega) (by omega)
        simp only [if_neg h10]
        rw [ih c' (n / 10) (by omega) (by omega)]

theorem natDigits_unfold (n : Nat) :
    natDigits n = if n < 10 then [digitCh n] else natDigits (n / 10) ++ [digitCh n] := by
  unfold natDigits
  cases n with
  | zero => simp [natDigitsB]
  | succ k =>
    simp only [natDigitsB]
    by_cases h10 : k + 1 < 10
    · simp [h10]
    · have hlt : (k + 1) / 10 < k + 1 := Nat.div_lt_self (by omega) (by omega)
      simp only [if_neg h10]
      rw [natDigitsB_irrel k ((k+1)/10) ((k+1)/10) (by omega) (by omega)]

theorem natDigits_all_digits (n : Nat) : ∀ c ∈ natDigits n, isDigitCh c = true := by
  induction n using Nat.strongRecOn with
  | _ n ih =>
    rw [natDigits_unfold]
    intro c hc
    by_cases h10 : n < 10
    · simp [h10] at hc
      subst hc; exact isDigitCh_digitCh n
    · simp only [if_neg h10, List.mem_append, List.mem_singleton] at hc
      rcases hc with h | h
      · exact ih (n / 10) (Nat.div_lt_self (by omega) (by omega)) c h
      · subst h; exact isDigitCh_digitCh n

theorem natDigits_cons (n : Nat) :
    ∃ c t, natDigits n = c :: t ∧ isDigitCh c = true := by
  match h : natDigits n with
  | [] =>
    exfalso
    rw [natDigits_unfold] at h
    by_cases h10 : n < 10 <;> simp [h10] at h
  | c :: t =>
    refine ⟨c, t, rfl, natDigits_all_digits n c ?_⟩
    rw [h]; exact List.mem_cons_self c t

theorem parseDigits_run (ds : List Char) (hds : ∀ c ∈ ds, isDigitCh c = true)
    (rest : List Char) (hrest : numStop rest = true) :
    ∀ acc, parseDigits acc (ds ++ rest) =
      (List.foldl (fun a c => a * 10 + digitVal c) acc ds, rest) := by
  induction ds with
  | nil =>
    intro acc
    cases rest with
    | nil => rfl
    | cons c cs =>
      simp only [numStop, Bool.not_eq_true'] at hrest
      simp [parseDigits, hrest]
  | cons c t ih =>
    intro acc
    have hc : isDigitCh c = true := hds c (List.mem_cons_self c t)
    simp only [List.cons_append, parseDigits, hc, if_pos, List.append_eq]
    rw [ih (fun x hx => hds x (List.mem_cons_of_mem c hx)) (acc * 10 + digitVal c)]
    simp [List.foldl_cons]

theorem foldl_natDigits (n : Nat) :
    ∀ acc, List.foldl (fun a c => a * 10 + digitVal c) acc (natDigits n)
      = acc * 10 ^ (natDigits n).length + n := by
  induction n using Nat.strongRecOn with
  | _ n ih =>
    intro acc
    by_cases h10 : n < 10
    · rw [natDigits_unfold, if_pos h10]
      simp [digitVal_digitCh]
      omega
    · rw [natDigits_unfold, if_neg h10]
      have hlt : n / 10 < n := Nat.div_lt_self (by omega) (by omega)
      rw [List.foldl_append, ih (n / 10) hlt acc]
      simp only [List.foldl_cons, List.foldl_nil, List.length_append, List.length_cons,
        List.length_nil, digitVal_digitCh]
      have hshift : (acc * 10 ^ (natDigits (n / 10)).length + n / 10) * 10 + n % 10
          = acc * (10 ^ (natDigits (n / 10)).length * 10) + (n / 10 * 10 + n % 10) := by ring
      rw [hshift,
        show (natDigits (n / 10)).length + (0 + 1) = (natDigits (n / 10)).length + 1 from by omega,
        pow_succ]
      omega

theorem parseDigits_natDigits (n : Nat) (rest : List Char) (hrest : numStop rest = true) :
    parseDigits 0 (natDigits n ++ rest) = (n, rest) := by
  rw [parseDigits_run (natDigits n) (natDigits_all_digits n) rest hrest 0,
      foldl_natDigits n 0]
  simp


theorem parseStrBody_escape (c : Char) (rest : List Char) :
    parseStrBody (encodeStrChar c ++ rest) =
      match parseStrBody rest with
      | none => none
      | some (body, r) => some (c :: body, r) := by
  by_cases h1 : c = '"'
  · subst h1; simp [encodeStrChar, parseStrBody]
  by_cases h2 : c = '\\'
  · subst h2; simp [encodeStrChar, parseStrBody]
  by_cases h3 : c = Char.ofNat 8
  · subst h3; simp [encodeStrChar, parseStrBody]
  by_cases h4 : c = '\t'
  · subst h4; simp [encodeStrChar, parseStrBody]
  by_cases h5 : c = '\n'
  · subst h5; simp [encodeStrChar, parseStrBody]
  by_cases h6 : c = Char.ofNat 12
  · subst h6; simp [encodeStrChar, parseStrBody]
  by_cases h7 : c = Char.ofNat 13
  · subst h7; simp [encodeStrChar, parseStrBody]
  · rw [show encodeStrChar c = [c] from by
        simp [encodeStrChar, h1, h2, h3, h4, h5, h6, h7]]
    rw [List.cons_append, List.nil_append, parseStrBody.eq_def]
    simp [h1, h2]

theorem parseStrBody_encode (cs : List Char) : ∀ rest : List Char,
    parseStrBody (encodeStrBody cs ++ '"' :: rest) = some (cs, rest) := by
  induction cs with
  | nil =>
    intro rest
    rw [show encodeStrBody [] = [] from rfl, List.nil_append, parseStrBody.eq_def]
    simp
  | cons c t ih =>
    intro rest
    rw [show encodeStrBody (c :: t) = encodeStrChar c ++ encodeStrBody t from rfl,
      List.append_assoc, parseStrBody_escape, ih rest]



/-! ### The codec round-trip -/

theorem isDigitCh_ne {c : Char} (h : isDigitCh c = true) :
    c ≠ 'n' ∧ c ≠ 't' ∧ c ≠ 'f' ∧ c ≠ '"' ∧ c ≠ '-' ∧ c ≠ '[' ∧ c ≠ braceOpen ∧
    c ≠ ']' ∧ c ≠ braceClose ∧ c ≠ ',' ∧ c ≠ ':' := by
  refine ⟨?_, ?_, ?_, ?_, ?_, ?_, ?_, ?_, ?_, ?_, ?_⟩ <;>
    (intro he; subst he; exact absurd h (by decide))

theorem encodeVal_head (v : JsValue) :
    ∃ c t, encodeVal v = c :: t ∧
      (c = 'n' ∨ c = 't' ∨ c = 'f' ∨ c = '"' ∨ c = '-' ∨ isDigitCh c = true ∨
       c = '[' ∨ c = braceOpen) := by
  cases v with
  | null => exact ⟨'n', _, rfl, by tauto⟩
  | bool b => cases b with
    | true => exact ⟨'t', _, rfl, by tauto⟩
    | false => exact ⟨'f', _, rfl, by tauto⟩
  | num n =>
    by_cases hneg : n < 0
    · refine ⟨'-', natDigits n.natAbs, ?_, by tauto⟩
      rw [show encodeVal (.num n) = intChars n from rfl, intChars, if_pos hneg]
    · obtain ⟨c, t, hct, hc⟩ := natDigits_cons n.natAbs
      refine ⟨c, t, ?_, by tauto⟩
      rw [show encodeVal (.num n) = intChars n from rfl, intChars, if_neg hneg, hct]
  | str s => exact ⟨'"', _, rfl, by tauto⟩
  | arr es => exact ⟨'[', _, rfl, by tauto⟩
  | obj fs => exact ⟨braceOpen, _, rfl, by tauto⟩

theorem encodeVal_head_ne (v : JsValue) :
    ∃ c t, encodeVal v = c :: t ∧ c ≠ ']' ∧ c ≠ braceClose := by
  obtain ⟨c, t, hct, hc⟩ := encodeVal_head v
  refine ⟨c, t, hct, ?_, ?_⟩
  · rcases hc with h | h | h | h | h | h | h | h
    · subst h; decide
    · subst h; decide
    · subst h; decide
    · subst h; decide
    · subst h; decide
    · exact (isDigitCh_ne h).2.2.2.2.2.2.2.1
    · subst h; decide
    · subst h; decide
  · rcases hc with h | h | h | h | h | h | h | h
    · subst h; decide
    · subst h; decide
    · subst h; decide
    · subst h; decide
    · subst h; decide
    · exact (isDigitCh_ne h).2.2.2.2.2.2.2.2.1
    · subst h; decide
    · subst h; decide

theorem encodeVal_length_pos (v : JsValue) : 0 < (encodeVal v).length := by
  obtain ⟨c, t, hct, _⟩ := encodeVal_head v
  simp [hct]

theorem encodeElemsTail_cons (x : JsValue) (xs : List JsValue) :
    encodeElemsTail (x :: xs) = ',' :: encodeElems (x :: xs) := rfl

theorem encodeFieldsTail_cons (x : String × JsValue) (xs : List (String × JsValue)) :
    encodeFieldsTail (x :: xs) = ',' :: encodeFields (x :: xs) := by
  rcases x with ⟨k, v⟩; rfl


theorem parseVal_minus_digit (f : Nat) (d : Char) (ds : List Char) (hd : isDigitCh d = true) :
    parseVal (f + 1) ('-' :: d :: ds) =
      some (.num (-(((parseDigits 0 (d :: ds)).1 : Nat) : Int)), (parseDigits 0 (d :: ds)).2) := by
  have hstep : parseVal (f + 1) ('-' :: d :: ds) =
      if isDigitCh d then
        (match parseDigits 0 (d :: ds) with
         | (n, rest) => some (.num (-(n : Int)), rest))
      else none := rfl
  rw [hstep, if_pos hd]

theorem parseVal_digit (f : Nat) (d : Char) (ds : List Char) (hd : isDigitCh d = true) :
    parseVal (f + 1) (d :: ds) =
      some (.num (((parseDigits 0 (d :: ds)).1 : Nat) : Int), (parseDigits 0 (d :: ds)).2) := by
  obtain ⟨hn, ht, hf', hq, hm, _, _, _, _, _, _⟩ := isDigitCh_ne hd
  simp only [parseVal]
  rw [if_neg hn, if_neg ht, if_neg hf', if_neg hq, if_neg hm, if_pos hd]

theorem parseVal_arrCons (f : Nat) (c2 : Char) (cs2 : List Char) :
    parseVal (f + 1) ('[' :: c2 :: cs2) =
      if c2 = ']' then some (.arr [], cs2)
      else
        match parseElems f (c2 :: cs2) with
        | none => none
        | some (es, rest) => some (.arr es, rest) := by
  simp only [parseVal]
  rw [if_neg (by decide), if_neg (by decide), if_neg (by decide), if_neg (by decide),
    if_neg (by decide), if_neg (by decide), if_pos trivial]

theorem parseVal_objCons (f : Nat) (c2 : Char) (cs2 : List Char) :
    parseVal (f + 1) (braceOpen :: c2 :: cs2) =
      if c2 = braceClose then some (.obj [], cs2)
      else
        match parseFields f (c2 :: cs2) with
        | none => none
        | some (fs, rest) => some (.obj fs, rest) := by
  simp only [parseVal]
  rw [if_neg (by decide), if_neg (by decide), if_neg (by decide), if_neg (by decide),
    if_neg (by decide), if_neg (by decide), if_neg (by decide), if_pos trivial]

theorem parseElems_step (f : Nat) (cs : List Char) :
    parseElems (f + 1) cs =
      match parseVal f cs with
      | none => none
      | some (v, rest) =>
        match rest with
        | [] => none
        | r :: rs =>
          if r = ',' then
            match parseElems f rs with
            | none => none
            | some (vs, rest2) => some (v :: vs, rest2)
          else if r = ']' then some ([v], rs)
          else none := by
  simp only [parseElems]

theorem parseFields_step (f : Nat) (cs : List Char) :
    parseFields (f + 1) cs =
      match cs with
      | [] => none
      | c :: cs2 =>
        if c = '"' then
          match parseStrBody cs2 with
          | none => none
          | some (key, rest1) =>
            match rest1 with
            | ':' :: rest2 =>
              match parseVal f rest2 with
              | none => none
              | some (v, rest3) =>
                match rest3 with
                | [] => none
                | r :: rs =>
                  if r = ',' then
                    match parseFields f rs with
                    | none => none
                    | some (fs, rest4) => some ((⟨key⟩, v) :: fs, rest4)
                  else if r = braceClose then some ([(⟨key⟩, v)], rs)
                  else none
            | _ => none
        else none := by
  simp only [parseFields]


theorem parseFields_quote (f : Nat) (cs2 : List Char) :
    parseFields (f + 1) ('"' :: cs2) =
      match parseStrBody cs2 with
      | none => none
      | some (key, rest1) =>
        match rest1 with
        | ':' :: rest2 =>
          match parseVal f rest2 with
          | none => none
          | some (v, rest3) =>
            match rest3 with
            | [] => none
            | r :: rs =>
              if r = ',' then
                match parseFields f rs with
                | none => none
                | some (fs, rest4) => some ((⟨key⟩, v) :: fs, rest4)
              else if r = braceClose then some ([(⟨key⟩, v)], rs)
              else none
        | _ => none := by
  simp only [parseFields]
  rw [if_pos (by trivial)]

mutual
theorem rtVal : ∀ (v : JsValue) (fuel : Nat) (rest : List Char),
    (encodeVal v).length < fuel → numStop rest = true →
    parseVal fuel (encodeVal v ++ rest) = some (v, rest)
  | .null, fuel, rest, hf, _ => by
    cases fuel with
    | zero => simp [encodeVal] at hf
    | succ f =>
      rw [show encodeVal .null ++ rest = 'n' :: 'u' :: 'l' :: 'l' :: rest from rfl]
      simp [parseVal]
  | .bool true, fuel, rest, hf, _ => by
    cases fuel with
    | zero => simp [encodeVal] at hf
    | succ f =>
      rw [show encodeVal (.bool true) ++ rest = 't' :: 'r' :: 'u' :: 'e' :: rest from rfl]
      simp [parseVal]
  | .bool false, fuel, rest, hf, _ => by
    cases fuel with
    | zero => simp [encodeVal] at hf
    | succ f =>
      rw [show encodeVal (.bool false) ++ rest = 'f' :: 'a' :: 'l' :: 's' :: 'e' :: rest
        from rfl]
      simp [parseVal]
  | .num n, fuel, rest, hf, hrest => by
    cases fuel with
    | zero => exact absurd hf (Nat.not_lt_zero _)
    | succ f =>
      obtain ⟨c0, t0, h0, hc0⟩ := natDigits_cons n.natAbs
      by_cases hneg : n < 0
      · have harg : encodeVal (.num n) ++ rest = '-' :: (c0 :: (t0 ++ rest)) := by
          rw [show encodeVal (.num n) = intChars n from rfl, intChars, if_pos hneg, h0]
          simp
        rw [harg, parseVal_minus_digit f c0 (t0 ++ rest) hc0]
        have hpd : parseDigits 0 (c0 :: (t0 ++ rest)) = (n.natAbs, rest) := by
          rw [show c0 :: (t0 ++ rest) = (c0 :: t0) ++ rest from rfl, ← h0]
          exact parseDigits_natDigits n.natAbs rest hrest
        rw [hpd]
        have hval : (-((n.natAbs : Nat) : Int)) = n := by omega
        rw [hval]
      · have harg : encodeVal (.num n) ++ rest = c0 :: (t0 ++ rest) := by
          rw [show encodeVal (.num n) = intChars n from rfl, intChars, if_neg hneg, h0]
          simp
        rw [harg, parseVal_digit f c0 (t0 ++ rest) hc0]
        have hpd : parseDigits 0 (c0 :: (t0 ++ rest)) = (n.natAbs, rest) := by
          rw [show c0 :: (t0 ++ rest) = (c0 :: t0) ++ rest from rfl, ← h0]
          exact parseDigits_natDigits n.natAbs rest hrest
        rw [hpd]
        have hval : ((n.natAbs : Nat) : Int) = n := by omega
        rw [hval]
  | .str s, fuel, rest, hf, _ => by
    cases fuel with
    | zero => exact absurd hf (Nat.not_lt_zero _)
    | succ f =>
      have harg : encodeVal (.str s) ++ rest = '"' :: (encodeStrBody s.data ++ ('"' :: rest)) := by
        rw [show encodeVal (.str s) = '"' :: (encodeStrBody s.data ++ ['"']) from rfl]
        simp
      have hstep : parseVal (f + 1) ('"' :: (encodeStrBody s.data ++ ('"' :: rest))) =
          match parseStrBody (encodeStrBody s.data ++ ('"' :: rest)) with
          | none => none
          | some (body, r) => some (.str ⟨body⟩, r) := by
        simp only [parseVal]
        rw [if_neg (by decide), if_neg (by decide), if_neg (by decide), if_pos (by trivial)]
      rw [harg, hstep, parseStrBody_encode s.data rest]
  | .arr [], fuel, rest, hf, _ => by
    cases fuel with
    | zero => exact absurd hf (Nat.not_lt_zero _)
    | succ f =>
      have harg : encodeVal (.arr []) ++ rest = '[' :: ']' :: rest := by
        simp [encodeVal, encodeElems]
      rw [harg, parseVal_arrCons, if_pos rfl]
  | .arr (v :: vs), fuel, rest, hf, _ => by
    cases fuel with
    | zero => exact absurd hf (Nat.not_lt_zero _)
    | succ f =>
      have hlen : (encodeVal (.arr (v :: vs))).length = (encodeElems (v :: vs)).length + 2 := by
        rw [show encodeVal (.arr (v :: vs)) = '[' :: (encodeElems (v :: vs) ++ [']']) from rfl]
        simp
      have hb : (encodeElems (v :: vs)).length + 1 < f := by omega
      obtain ⟨c0, t0, h0, hne1, _⟩ := encodeVal_head_ne v
      have hElemsShape : encodeElems (v :: vs) = c0 :: (t0 ++ encodeElemsTail vs) := by
        rw [show encodeElems (v :: vs) = encodeVal v ++ encodeElemsTail vs from rfl, h0]
        simp
      have harg : encodeVal (.arr (v :: vs)) ++ rest
          = '[' :: (c0 :: (t0 ++ encodeElemsTail vs ++ (']' :: rest))) := by
        rw [show encodeVal (.arr (v :: vs)) = '[' :: (encodeElems (v :: vs) ++ [']']) from rfl,
          hElemsShape]
        simp
      rw [harg, parseVal_arrCons, if_neg hne1]
      have hE : parseElems f (c0 :: (t0 ++ encodeElemsTail vs ++ (']' :: rest)))
          = some (v :: vs, rest) := by
        have heq : c0 :: (t0 ++ encodeElemsTail vs ++ (']' :: rest))
            = encodeElems (v :: vs) ++ (']' :: rest) := by
          rw [hElemsShape]; simp
        rw [heq]
        exact rtElems v vs f rest hb
      rw [hE]
  | .obj [], fuel, rest, hf, _ => by
    cases fuel with
    | zero => exact absurd hf (Nat.not_lt_zero _)
    | succ f =>
      have harg : encodeVal (.obj []) ++ rest = braceOpen :: braceClose :: rest := by
        simp [encodeVal, encodeFields]
      rw [harg, parseVal_objCons, if_pos rfl]
  | .obj ((k, v) :: fs), fuel, rest, hf, _ => by
    cases fuel with
    | zero => exact absurd hf (Nat.not_lt_zero _)
    | succ f =>
      have hFshape : encodeFields ((k, v) :: fs)
          = '"' :: (encodeStrBody k.data ++ ('"' :: (':' :: (encodeVal v ++ encodeFieldsTail fs)))) := by
        rw [show encodeFields ((k, v) :: fs)
            = '"' :: (encodeStrBody k.data ++ ['"', ':']) ++ encodeVal v ++ encodeFieldsTail fs
          from rfl]
        simp
      have hlen : (encodeVal (.obj ((k, v) :: fs))).length
          = (encodeFields ((k, v) :: fs)).length + 2 := by
        rw [show encodeVal (.obj ((k, v) :: fs))
            = braceOpen :: (encodeFields ((k, v) :: fs) ++ [braceClose]) from rfl]
        simp
      have hb : (encodeFields ((k, v) :: fs)).length + 1 < f := by omega
      have harg : encodeVal (.obj ((k, v) :: fs)) ++ rest
          = braceOpen :: ('"' :: ((encodeStrBody k.data
              ++ ('"' :: (':' :: (encodeVal v ++ encodeFieldsTail fs)))) ++ (braceClose :: rest))) := by
        rw [show encodeVal (.obj ((k, v) :: fs))
            = braceOpen :: (encodeFields ((k, v) :: fs) ++ [braceClose]) from rfl, hFshape]
        simp
      rw [harg, parseVal_objCons, if_neg (by decide)]
      have hF : parseFields f ('"' :: ((encodeStrBody k.data
            ++ ('"' :: (':' :: (encodeVal v ++ encodeFieldsTail fs)))) ++ (braceClose :: rest)))
          = some ((k, v) :: fs, rest) := by
        have heq : ('"' : Char) :: ((encodeStrBody k.data
              ++ ('"' :: (':' :: (encodeVal v ++ encodeFieldsTail fs)))) ++ (braceClose :: rest))
            = encodeFields ((k, v) :: fs) ++ (braceClose :: rest) := by
          rw [hFshape]; simp
        rw [heq]
        exact rtFields (k, v) fs f rest hb
      rw [hF]
termination_by v _ _ _ _ => sizeOf v

theorem rtElems : ∀ (v : JsValue) (vs : List JsValue) (fuel : Nat) (rest : List Char),
    (encodeElems (v :: vs)).length + 1 < fuel →
    parseElems fuel (encodeElems (v :: vs) ++ (']' :: rest)) = some (v :: vs, rest)
  | v, [], fuel, rest, hf => by
    cases fuel with
    | zero => exact absurd hf (Nat.not_lt_zero _)
    | succ f =>
      have hlen : (encodeElems [v]).length = (encodeVal v).length := by
        rw [show encodeElems [v] = encodeVal v ++ encodeElemsTail [] from rfl]
        simp [encodeElemsTail]
      have hb : (encodeVal v).length < f := by omega
      have harg : encodeElems [v] ++ (']' :: rest) = encodeVal v ++ (']' :: rest) := by
        rw [show encodeElems [v] = encodeVal v ++ encodeElemsTail [] from rfl]
        simp [encodeElemsTail]
      have hv := rtVal v f (']' :: rest) hb rfl
      rw [harg, parseElems_step, hv]
      simp
  | v, x :: xs, fuel, rest, hf => by
    cases fuel with
    | zero => exact absurd hf (Nat.not_lt_zero _)
    | succ f =>
      have hlen : (encodeElems (v :: x :: xs)).length
          = (encodeVal v).length + 1 + (encodeElems (x :: xs)).length := by
        rw [show encodeElems (v :: x :: xs) = encodeVal v ++ encodeElemsTail (x :: xs) from rfl,
          encodeElemsTail_cons]
        simp
        omega
      have hvpos := encodeVal_length_pos v
      have hb1 : (encodeVal v).length < f := by omega
      have hb2 : (encodeElems (x :: xs)).length + 1 < f := by omega
      have harg : encodeElems (v :: x :: xs) ++ (']' :: rest)
          = encodeVal v ++ (',' :: (encodeElems (x :: xs) ++ (']' :: rest))) := by
        rw [show encodeElems (v :: x :: xs) = encodeVal v ++ encodeElemsTail (x :: xs) from rfl,
          encodeElemsTail_cons]
        simp
      have hv := rtVal v f (',' :: (encodeElems (x :: xs) ++ (']' :: rest))) hb1 rfl
      have hx := rtElems x xs f rest hb2
      rw [harg, parseElems_step, hv]
      simp [hx]
termination_by v vs _ _ _ => sizeOf v + sizeOf vs

theorem rtFields : ∀ (kv : String × JsValue) (fs : List (String × JsValue)) (fuel : Nat)
    (rest : List Char),
    (encodeFields (kv :: fs)).length + 1 < fuel →
    parseFields fuel (encodeFields (kv :: fs) ++ (braceClose :: rest)) = some (kv :: fs, rest)
  | (k, v), [], fuel, rest, hf => by
    cases fuel with
    | zero => exact absurd hf (Nat.not_lt_zero _)
    | succ f =>
      have hlen : (encodeFields [(k, v)]).length
          = (encodeStrBody k.data).length + 3 + (encodeVal v).length := by
        rw [show encodeFields [(k, v)]
            = '"' :: (encodeStrBody k.data ++ ['"', ':']) ++ encodeVal v ++ encodeFieldsTail []
          from rfl]
        simp [encodeFieldsTail]
        omega
      have hb : (encodeVal v).length < f := by omega
      have harg : encodeFields [(k, v)] ++ (braceClose :: rest)
          = '"' :: (encodeStrBody k.data ++ ('"' :: (':' :: (encodeVal v ++ (braceClose :: rest))))) := by
        rw [show encodeFields [(k, v)]
            = '"' :: (encodeStrBody k.data ++ ['"', ':']) ++ encodeVal v ++ encodeFieldsTail []
          from rfl]
        simp [encodeFieldsTail]
      have hv := rtVal v f (braceClose :: rest) hb rfl
      rw [harg, parseFields_quote, parseStrBody_encode k.data _]
      simp [hv, show braceClose ≠ ',' from by decide]
  | (k, v), x :: fs2, fuel, rest, hf => by
    cases fuel with
    | zero => exact absurd hf (Nat.not_lt_zero _)
    | succ f =>
      have hlen : (encodeFields ((k, v) :: x :: fs2)).length
          = (encodeStrBody k.data).length + 4 + (encodeVal v).length
            + (encodeFields (x :: fs2)).length := by
        rw [show encodeFields ((k, v) :: x :: fs2)
            = '"' :: (encodeStrBody k.data ++ ['"', ':']) ++ encodeVal v
              ++ encodeFieldsTail (x :: fs2)
          from rfl, encodeFieldsTail_cons]
        simp
        omega
      have hb1 : (encodeVal v).length < f := by omega
      have hb2 : (encodeFields (x :: fs2)).length + 1 < f := by omega
      have harg : encodeFields ((k, v) :: x :: fs2) ++ (braceClose :: rest)
          = '"' :: (encodeStrBody k.data
              ++ ('"' :: (':' :: (encodeVal v
                ++ (',' :: (encodeFields (x :: fs2) ++ (braceClose :: rest))))))) := by
        rw [show encodeFields ((k, v) :: x :: fs2)
            = '"' :: (encodeStrBody k.data ++ ['"', ':']) ++ encodeVal v
              ++ encodeFieldsTail (x :: fs2)
          from rfl, encodeFieldsTail_cons]
        simp
      have hv := rtVal v f (',' :: (encodeFields (x :: fs2) ++ (braceClose :: rest))) hb1 rfl
      have hx := rtFields x fs2 f rest hb2
      rw [harg, parseFields_quote, parseStrBody_encode k.data _]
      simp [hv, hx]
termination_by kv fs _ _ _ => sizeOf kv + sizeOf fs
end

/-- The codec round-trip: the bridge's decoder inverts the harness's
serializer on every `JsValue`. -/
theorem jsonParse_stringify (v : JsValue) : jsonParse (jsonStringify v) = some v := by
  have h := rtVal v ((encodeVal v).length + 1) [] (by omega) rfl
  rw [List.append_nil] at h
  unfold jsonParse jsonStringify
  rw [show ((⟨encodeVal v⟩ : String)).data = encodeVal v from rfl, h]


/-! ### Bridge lemmas -/

theorem buildWorkerScript_fn (nm src : String) (deps : List Dependency) :
    buildWorkerScript (.fn nm src) deps = .ok (okScript nm src deps) := by
  simp [buildWorkerScript, getFunctionString, funcNameOf, okScript]

theorem buildWorkerScript_badValue (e : RawErr) (deps : List Dependency) :
    buildWorkerScript (.badValue e) deps = .error e := by
  simp [buildWorkerScript, getFunctionString]

theorem stepBridge_settled_stable (script : String) (st : BridgeState) (e : WorkerEvent)
    (h : st.settled.isSome = true) : (stepBridge script st e).settled = st.settled := by
  cases e with
  | errorEv m k => simp [stepBridge, settleWith, h]
  | messageEv m =>
    by_cases hc : st.msgConsumed
    · simp [stepBridge, hc]
    · simp only [stepBridge, hc, Bool.false_eq_true, if_false]
      rcases hp : jsonParse (strDrop m 4) with _ | r
      · simp
      · by_cases hres : strTake m 3 = "res"
        · simp [hres, settleWith, h]
        · by_cases herr : strTake m 3 = "err"
          · simp only [hres, if_false, herr, if_true]
            rcases jsGetProp r "message" with _ | pm
            · simp
            · rcases jsGetProp r "stack" with _ | ps
              · simp
              · simp [settleWith, h]
          · simp [hres, herr]

theorem foldl_settled_stable (script : String) :
    ∀ (rest : List WorkerEvent) (st : BridgeState), st.settled.isSome = true →
      (rest.foldl (stepBridge script) st).settled = st.settled := by
  intro rest
  induction rest with
  | nil => intro st _; rfl
  | cons e t ih =>
    intro st h
    have hA := stepBridge_settled_stable script st e h
    simp only [List.foldl_cons]
    rw [ih (stepBridge script st e) (by rw [hA]; exact h), hA]

theorem stepBridge_consumed (script : String) (st : BridgeState) (m : String)
    (h : st.msgConsumed = true) : stepBridge script st (.messageEv m) = st := by
  simp [stepBridge, h]

theorem foldl_msgs_consumed (script : String) (msgs : List String) :
    ∀ st : BridgeState, st.msgConsumed = true →
      (msgs.map WorkerEvent.messageEv).foldl (stepBridge script) st = st := by
  induction msgs with
  | nil => intro st _; rfl
  | cons m t ih =>
    intro st h
    simp only [List.map_cons, List.foldl_cons, stepBridge_consumed script st m h]
    exact ih st h

theorem stepBridge_first_message_unknown (script : String) (m : String)
    (h1 : strTake m 3 ≠ "res") (h2 : strTake m 3 ≠ "err") :
    (stepBridge script initialBridge (.messageEv m)).settled = none ∧
    (stepBridge script initialBridge (.messageEv m)).msgConsumed = true := by
  simp only [stepBridge, initialBridge, Bool.false_eq_true, if_false]
  rcases hp : jsonParse (strDrop m 4) with _ | r
  · simp
  · simp [h1, h2]


/-! ### Synthesizer lemmas -/

theorem depLoop_cons (d : Dependency) (ds : List Dependency) (acc : List String) :
    depLoop (d :: ds) acc = depLoop ds (acc ++ depStatements d) := by
  rcases d with ⟨src, ex, df⟩
  simp only [depLoop, depStatements]
  cases ex <;> cases df <;> simp <;> split_ifs <;> simp

theorem depLoop_acc : ∀ (ds : List Dependency) (acc : List String),
    depLoop ds acc = acc ++ depLoop ds [] := by
  intro ds
  induction ds with
  | nil => intro acc; simp [depLoop]
  | cons d t ih =>
    intro acc
    rw [depLoop_cons, depLoop_cons, ih (acc ++ depStatements d), ih ([] ++ depStatements d)]
    simp

theorem depLoop_join : ∀ ds : List Dependency, depLoop ds [] = (ds.map depStatements).flatten := by
  intro ds
  induction ds with
  | nil => rfl
  | cons d t ih =>
    rw [depLoop_cons, depLoop_acc, ih]
    simp

/-! ### Option-object lemmas -/

theorem lookup_setKey_self {V : Type} : ∀ (l : List (String × V)) (k : String) (v : V),
    lookupKey (setKey l k v) k = some v := by
  intro l k v
  induction l with
  | nil => simp [setKey, lookupKey]
  | cons p t ih =>
    rcases p with ⟨k2, w⟩
    by_cases h : k2 = k
    · simp [setKey, h, lookupKey]
    · simp [setKey, h, lookupKey, ih]

theorem lookup_setKey_other {V : Type} : ∀ (l : List (String × V)) (k : String) (v : V)
    (k2 : String), k2 ≠ k → lookupKey (setKey l k v) k2 = lookupKey l k2 := by
  intro l k v k2 hne
  induction l with
  | nil =>
    simp [setKey, lookupKey]
    exact fun h2 => hne h2.symm
  | cons p t ih =>
    rcases p with ⟨k3, w⟩
    by_cases h : k3 = k
    · subst h
      have hnk : ¬ k3 = k2 := fun h2 => hne h2.symm
      simp [setKey, lookupKey, hnk]
    · simp [setKey, h, lookupKey, ih]


/-! ### Claim theorems -/

/-- C1: the claim says a synthesis failure is caught, wrapped in a
`WorkerError`, and surfaced as a rejected Future.  The code calls
`buildWorkerScript` before the `try` block, so the raw host error
propagates synchronously to the caller unwrapped (and no worker is
spawned); the wrapping `catch` is unreachable.  This theorem evaluates the
code at the failing inputs: for every malformed function argument the
caller observes the raw thrown error itself. -/
theorem c1_synthesis_failure_thrown_raw (e : RawErr) (payload : JsValue)
    (deps : List Dependency) (props : List (String × OptVal)) :
    workerToPromise (.badValue e) payload deps props = .syncThrow (.raw e) := by
  simp [workerToPromise, buildWorkerScript_badValue]

/-- C2: the claim says every error reaching the caller is a
`WorkerError`.  On a malformed function argument the caller instead
observes the raw host error (`.raw e`), which is not a `WorkerError`
(the two constructors of `ThrownValue` are distinct), refuting the
universal normalization policy. -/
theorem c2_raw_error_reaches_caller (e : RawErr) (payload : JsValue)
    (deps : List Dependency) (props : List (String × OptVal)) :
    workerToPromise (.badValue e) payload deps props = .syncThrow (.raw e)
    ∧ ∀ w : WorkerError, ThrownValue.raw e ≠ ThrownValue.worker w := by
  refine ⟨by simp [workerToPromise, buildWorkerScript_badValue], ?_⟩
  intro w h
  cases h

/-- C3 counterexample: with zero outbound messages and no failure signal
the returned Future settles zero times, not exactly once — the claim's
"settles exactly once ... regardless of whether the unit sends zero ...
messages" fails at the empty event trace. -/
theorem c3_zero_events_never_settles : (runBridge "s" []).settled = none := rfl

/-- C3 (amended): the Future settles at most once — once some event has
settled it, no later event changes the settlement — and a message
arriving after the first message is ignored entirely (silently dropped,
the one-shot listener being already consumed). -/
theorem c3_settles_at_most_once_first_wins :
    (∀ (script : String) (evs rest : List WorkerEvent),
      ((runBridge script evs).settled).isSome = true →
      (runBridge script (evs ++ rest)).settled = (runBridge script evs).settled)
    ∧ (∀ (script : String) (st : BridgeState) (m : String),
      st.msgConsumed = true → stepBridge script st (.messageEv m) = st) := by
  constructor
  · intro script evs rest h
    rw [runBridge, List.foldl_append]
    exact foldl_settled_stable script rest (runBridge script evs) h
  · exact stepBridge_consumed

/-- C3 witness: a trace settled by a failure signal stays settled when a
message arrives afterwards, and a consumed listener drops a message. -/
theorem c3_settlement_witness :
    ((runBridge "s" [.errorEv "m" "k"]).settled).isSome = true
    ∧ (runBridge "s" ([.errorEv "m" "k"] ++ [.messageEv "res:0"])).settled
        = (runBridge "s" [.errorEv "m" "k"]).settled
    ∧ stepBridge "s" ⟨none, true, 0⟩ (.messageEv "res:0") = ⟨none, true, 0⟩ :=
  ⟨rfl,
   c3_settles_at_most_once_first_wins.1 "s" [.errorEv "m" "k"] [.messageEv "res:0"] rfl,
   c3_settles_at_most_once_first_wins.2 "s" ⟨none, true, 0⟩ "res:0" rfl⟩

/-- C4: the bridge's message parsing inverts the harness's formatting.
Parsing the harness-formatted `res` message settles the Future as
succeeded with exactly the sent value, for every `JsValue`; parsing the
harness-formatted `err` message settles it as failed with a `WorkerError`
built from exactly the sent `message`/`stack` strings, annotated with the
line-numbered program text. -/
theorem c4_parse_inverts_harness_format :
    (∀ (script : String) (v : JsValue),
      stepBridge script initialBridge (.messageEv (harnessResMessage v))
        = ⟨some (.success v), true, 0⟩)
    ∧ (∀ (script msg stk : String),
      stepBridge script initialBridge (.messageEv (harnessErrMessage msg stk))
        = ⟨some (.failure (mkWorkerError (.val (.str msg)) (.val (.str stk)) script)),
            true, 0⟩
      ∧ (mkWorkerError (.val (.str msg)) (.val (.str stk)) script).message = msg
      ∧ (mkWorkerError (.val (.str msg)) (.val (.str stk)) script).generatedCode
          = numberLines script) := by
  constructor
  · intro script v
    have hdrop : strDrop ("res:" ++ jsonStringify v) 4 = jsonStringify v := rfl
    have htake : strTake ("res:" ++ jsonStringify v) 3 = "res" := rfl
    simp [harnessResMessage, stepBridge, initialBridge, hdrop, htake,
      jsonParse_stringify, settleWith]
  · intro script msg stk
    have hdrop : strDrop (harnessErrMessage msg stk) 4
        = jsonStringify (.obj [("message", .str msg), ("stack", .str stk)]) := rfl
    have htake : strTake (harnessErrMessage msg stk) 3 = "err" := rfl
    refine ⟨?_, rfl, rfl⟩
    simp [stepBridge, initialBridge, hdrop, htake, jsonParse_stringify, settleWith,
      jsGetProp, lookupField]

/-- C5: the synthesizer emits binding statements in declaration order,
each declaration contributing its named-exports statement (only when
`exports` is non-empty) before its default-binding statement (only when
`default` is non-empty), and a declaration with neither contributes
nothing and raises no error. -/
theorem c5_dependency_statements_in_order :
    (∀ deps : List Dependency,
      createDependencyStrings deps = joinWith "\n" ((deps.map depStatements).flatten))
    ∧ (∀ src : String, depStatements ⟨src, none, none⟩ = []) := by
  constructor
  · intro deps
    rw [createDependencyStrings, depLoop_join]
  · intro src
    rfl

/-- C6: an outbound first message whose 3-character tag is neither `res`
nor `err` settles nothing — with no failure signal among the events, the
invocation stays pending forever, however many further messages arrive. -/
theorem c6_unknown_tag_never_settles (script m : String) (msgs : List String)
    (h1 : strTake m 3 ≠ "res") (h2 : strTake m 3 ≠ "err") :
    (runBridge script (.messageEv m :: msgs.map .messageEv)).settled = none := by
  obtain ⟨hs, hc⟩ := stepBridge_first_message_unknown script m h1 h2
  rw [runBridge, List.foldl_cons, foldl_msgs_consumed script msgs _ hc]
  exact hs

/-- C6 witness: a `foo`-tagged message leaves the Future pending. -/
theorem c6_unknown_tag_witness :
    (runBridge "s" (.messageEv "foo:0" :: ([] : List String).map .messageEv)).settled
      = none :=
  c6_unknown_tag_never_settles "s" "foo:0" [] (by decide) (by decide)

/-- C7 counterexample: the constructed `WorkerError`'s `stack` is not the
originating stack trace directly concatenated with the line-numbered
dump — the constructor interposes a fixed banner and trims the dump — so
the claim's conjunction fails already at `message = "m"`, `stack = "s"`,
`generatedCode source = "g"`. -/
theorem c7_stack_not_plain_concat :
    ¬ ((mkWorkerErrorS "m" "s" "g").generatedCode = numberLines "g"
      ∧ (mkWorkerErrorS "m" "s" "g").stack = "s" ++ numberLines "g"
      ∧ (mkWorkerErrorS "m" "s" "g").message = "m") := by decide

/-- C7 (amended): the `WorkerError` built from a message, a stack and the
generated text has `message` equal to the originating message,
`generatedCode` equal to the line-numbered dump (1-based numbers, `: `
separator), and `stack` equal to the originating stack trace followed by
the fixed generated-code banner, the dump trimmed of surrounding
whitespace, and a trailing newline-plus-indent. -/
theorem c7_worker_error_fields (m s g : String) :
    (mkWorkerErrorS m s g).message = m
    ∧ (mkWorkerErrorS m s g).generatedCode = numberLines g
    ∧ (mkWorkerErrorS m s g).stack
        = s ++ stackGlue1 ++ trimStr (numberLines g) ++ stackGlue2 :=
  ⟨rfl, rfl, rfl⟩

/-- C8: the synthesizer is deterministic — identical inputs yield
textually identical program text.  (In this embedding the synthesizer is
a pure function of its two arguments, which is the formal content of "no
side effects beyond returning the text".) -/
theorem c8_synthesizer_deterministic (f1 : JsFuncArg) (d1 : List Dependency)
    (f2 : JsFuncArg) (d2 : List Dependency) (hf : f1 = f2) (hd : d1 = d2) :
    buildWorkerScript f1 d1 = buildWorkerScript f2 d2 := by
  subst hf; subst hd; rfl

/-- C8 witness: determinism at a concrete input. -/
theorem c8_determinism_witness :
    buildWorkerScript (.fn "f" "(x) => x") [] = buildWorkerScript (.fn "f" "(x) => x") [] :=
  c8_synthesizer_deterministic _ _ _ _ rfl rfl

/-- C9: the options handed to the isolation primitive are the caller's
`spawnOptions` with `eval` forced to `true` and `workerData` forced to
the payload; every other key is passed through unchanged (looked up, it
yields exactly what `spawnOptions` held — nothing else is added, removed
or altered). -/
theorem c9_spawn_options_merge :
    (∀ (nm src : String) (payload : JsValue) (deps : List Dependency)
        (props : List (String × OptVal)),
      workerToPromise (.fn nm src) payload deps props
        = .promise ⟨okScript nm src deps,
            buildWorkerOptions props (.json (.bool true)) (.json payload)⟩)
    ∧ (∀ (V : Type) (props : List (String × V)) (e p : V),
      lookupKey (buildWorkerOptions props e p) "eval" = some e
      ∧ lookupKey (buildWorkerOptions props e p) "workerData" = some p
      ∧ ∀ k : String, k ≠ "eval" → k ≠ "workerData" →
          lookupKey (buildWorkerOptions props e p) k = lookupKey props k) := by
  constructor
  · intro nm src payload deps props
    simp [workerToPromise, buildWorkerScript_fn]
  · intro V props e p
    refine ⟨?_, ?_, ?_⟩
    · rw [buildWorkerOptions, lookup_setKey_other _ _ _ _ (by decide), lookup_setKey_self]
    · rw [buildWorkerOptions, lookup_setKey_self]
    · intro k h1 h2
      rw [buildWorkerOptions, lookup_setKey_other _ _ _ _ h2, lookup_setKey_other _ _ _ _ h1]

/-- C9 witness: the merge at concrete inputs, including passthrough of a
caller key. -/
theorem c9_spawn_options_witness :
    workerToPromise (.fn "f" "(x) => x") (.num 1) [] []
      = .promise ⟨okScript "f" "(x) => x" [],
          buildWorkerOptions [] (.json (.bool true)) (.json (.num 1))⟩
    ∧ lookupKey (buildWorkerOptions [("env", (0 : Nat))] 1 2) "env"
        = lookupKey [("env", (0 : Nat))] "env" :=
  ⟨c9_spawn_options_merge.1 "f" "(x) => x" (.num 1) [] [],
   (c9_spawn_options_merge.2 Nat [("env", 0)] 1 2).2.2 "env" (by decide) (by decide)⟩

/-- C10: when the text after the separator position is not decodable
JSON, the decoding throws inside the message listener before any
settlement: the Future stays pending (`settled = none`), the one-shot
listener is consumed, and the only effect is the listener crash — no
`WorkerError` reaches the caller. -/
theorem c10_bad_json_crashes_listener (script m : String)
    (h : jsonParse (strDrop m 4) = none) :
    runBridge script [.messageEv m] = ⟨none, true, 1⟩ := by
  simp [runBridge, stepBridge, initialBridge, h]

/-- C10 witness: a worker function returning `undefined` makes the
harness post `res:undefined`, whose payload is not valid JSON. -/
theorem c10_bad_json_witness :
    jsonParse (strDrop "res:undefined" 4) = none
    ∧ runBridge "s" [.messageEv "res:undefined"] = ⟨none, true, 1⟩ :=
  ⟨rfl, c10_bad_json_crashes_listener "s" "res:undefined" rfl⟩

end WorkerToPromise
